import Mathlib

set_option maxHeartbeats 1000000
set_option linter.constructorNameAsVariable false

namespace NewsHub

/-! Shallow embedding of the `PDFExtractor` document-reconstruction pipeline
(class `PDFExtractor` in the import-system guide, `splitIntoPages`,
`extractArticleIndex`, `parseIndexPage`, `extractArticleContents`,
`extractMetadata`, `parseDate`, `cleanFactivaText`, `filterArticles`).
Strings are modelled as `List Char`; the JavaScript regular expressions used
by the source are modelled by bespoke matchers returning the number of
characters consumed at the given position.  The regexes in the source combine
greedy repetition of a character class with a following atom drawn from a
disjoint class, so greedy matching without backtracking coincides with the
JavaScript backtracking semantics; the few patterns for which that is not the
case are modelled individually with their exact backtracking behaviour. -/

abbrev Str := List Char

/-- Character class of the JavaScript regexp whitespace escape (space, tab,
line feed, vertical tab, form feed, carriage return, NBSP, the Unicode space
separators, line and paragraph separators, narrow NBSP, math space,
ideographic space and BOM). -/
def isWsC (c : Char) : Bool :=
  let n := c.toNat
  n == 32 || n == 9 || n == 10 || n == 11 || n == 12 || n == 13 ||
  n == 160 || n == 0x1680 || (0x2000 ≤ n && n ≤ 0x200a) ||
  n == 0x2028 || n == 0x2029 || n == 0x202f || n == 0x205f ||
  n == 0x3000 || n == 0xfeff

/-- Decimal digit class of the regexp digit escape. -/
def isDigitC (c : Char) : Bool := 48 ≤ c.toNat && c.toNat ≤ 57

/-- The character class written as A-Z a-z in the source regexes. -/
def isAsciiLetterC (c : Char) : Bool :=
  (65 ≤ c.toNat && c.toNat ≤ 90) || (97 ≤ c.toNat && c.toNat ≤ 122)

/-- Word characters, as used by the regexp word-boundary assertion. -/
def isWordC (c : Char) : Bool :=
  isAsciiLetterC c || isDigitC c || c == '_'

/-- Numeric value of a list of decimal digits (the effect of parseInt on a
digit string). -/
def digitsVal (l : Str) : Nat := l.foldl (fun a c => a * 10 + (c.toNat - 48)) 0

/-- Length of the decimal representation of a number, i.e. the length of the
string produced by converting the number back to text. -/
def digitsLenAux : Nat → Nat → Nat
  | 0, _ => 0
  | f + 1, m => if m < 10 then 1 else 1 + digitsLenAux f (m / 10)

def digitsLen (n : Nat) : Nat := digitsLenAux (n + 1) n

/-- JavaScript trim: drop the whitespace run at both ends of the string.
This is the effect of the source's replace of the anchored whitespace runs
at the two ends with the empty string. -/
def jsTrim (s : Str) : Str :=
  ((s.dropWhile isWsC).reverse.dropWhile isWsC).reverse

/-- Split at every line feed, keeping empty pieces, as the JavaScript split
on a newline does. -/
def splitNl : Str → List Str
  | [] => [[]]
  | c :: r =>
    match splitNl r with
    | [] => [[c]]
    | h :: t => if c = '\n' then [] :: h :: t else (c :: h) :: t

/-- Splitting a trimmed string on whitespace runs: JavaScript split on a
whitespace-run regexp returns a singleton list holding the empty string when
the input is empty, and otherwise the maximal runs of non-whitespace. -/
def wsRuns : Str → List Str
  | [] => []
  | c :: r =>
    if isWsC c then wsRuns (r.dropWhile isWsC)
    else
      match wsRuns (r.dropWhile (fun d => !isWsC d)) with
      | t => (c :: r.takeWhile (fun d => !isWsC d)) :: t
termination_by s => s.length
decreasing_by
  all_goals
    simp only [List.length_cons]
    exact Nat.lt_succ_of_le (List.Sublist.length_le (List.dropWhile_sublist _))

def jsSplitWs (s : Str) : List Str :=
  if s.isEmpty then [[]] else wsRuns s

/-- Count of ASCII letters in a string (the length of the match list of the
global letter regexp). -/
def letterCount (s : Str) : Nat := (s.filter isAsciiLetterC).length

/-- Line terminators recognised by the multiline anchors of JavaScript
regexes: line feed, carriage return, line separator, paragraph separator. -/
def isLineTermC (c : Char) : Bool :=
  c == '\n' || c == '\r' || c.toNat == 0x2028 || c.toNat == 0x2029

/-! ### Matchers

A matcher takes the text at the current position and returns the number of
characters a successful match consumes there, or none. -/

abbrev M := Str → Option Nat

/-- Match a literal string, optionally case-insensitively (ASCII folding,
which is what the source's literals exercise). -/
def mLitAux (ci : Bool) : Str → Str → Option Nat
  | [], _ => some 0
  | _ :: _, [] => none
  | l :: ls, c :: cs =>
    if (if ci then l.toLower == c.toLower else l == c) then
      (mLitAux ci ls cs).map (· + 1)
    else none

def mLit (lit : String) : M := fun s => mLitAux false lit.data s

def mLitCI (lit : String) : M := fun s => mLitAux true lit.data s

/-- Substring containment (the JavaScript includes). -/
def strContains (hay needle : Str) : Bool :=
  (List.range (hay.length + 1)).any (fun i => (mLitAux false needle (hay.drop i)).isSome)

/-- Match a single given character. -/
def mChar (c : Char) : M := fun s =>
  match s with
  | d :: _ => if d = c then some 1 else none
  | [] => none

/-- Greedy match of a maximal run of characters of a class, requiring at
least `k` of them.  Used for class repetitions whose following atom is drawn
from a disjoint class, where greediness without backtracking is exact. -/
def mRunMin (p : Char → Bool) (k : Nat) : M := fun s =>
  let n := (s.takeWhile p).length
  if k ≤ n then some n else none

/-- A counted class repetition followed by an atom outside the class: the
maximal run must have exactly `k` members or the whole pattern fails. -/
def mRunExact (p : Char → Bool) (k : Nat) : M := fun s =>
  if (s.takeWhile p).length = k then some k else none

/-- A counted class repetition at the end of a pattern: consume exactly `k`
members of the class, leaving any further ones unmatched. -/
def mTakeExact (p : Char → Bool) (k : Nat) : M := fun s =>
  if k ≤ (s.takeWhile p).length then some k else none

/-- Sequential composition of matchers. -/
def mThen (a b : M) : M := fun s =>
  match a s with
  | none => none
  | some n =>
    match b (s.drop n) with
    | none => none
    | some m => some (n + m)

def mSeq (l : List M) : M := l.foldr mThen (fun _ => some 0)

/-- Does the matched region end at a line end (end of text or a line feed),
for patterns anchored at the line end under the multiline flag? -/
def lineEndAfter (n : Nat) (s : Str) : Bool :=
  match s.drop n with
  | [] => true
  | c :: _ => isLineTermC c

/-- One pass of global replacement: scan left to right; at each position try
the matcher (only at line starts when the pattern is anchored, and requiring
the match to stop at a line end in that case), emit the replacement and
resume after the matched region on success, otherwise copy one character.
The fuel starts at the length of the text and strictly bounds the number of
steps; every successful match consumes at least one character, so the fuel
never runs out when initialised that way. -/
def replAux (m : M) (r : Str) (anch : Bool) : Nat → Bool → Str → Str
  | 0, _, s => s
  | _ + 1, _, [] => []
  | f + 1, atLS, c :: rest =>
    match (if anch && !atLS then none else m (c :: rest)) with
    | some n =>
      if n = 0 then c :: replAux m r anch f (isLineTermC c) rest
      else if anch && !lineEndAfter n (c :: rest) then
        c :: replAux m r anch f (isLineTermC c) rest
      else r ++ replAux m r anch f false (List.drop (n - 1) rest)
    | none => c :: replAux m r anch f (isLineTermC c) rest

def replAll (anch : Bool) (m : M) (r : Str) (s : Str) : Str :=
  replAux m r anch s.length true s

/-! ### Data model -/

structure Page where
  pageNumber : Nat
  text : Str
deriving DecidableEq

structure IndexEntry where
  title : Str
  pageNumber : Nat
deriving DecidableEq

structure ArticleMeta where
  source : Option Str := none
  author : Option Str := none
  publishDate : Option Str := none
  wordCount : Option Nat := none
deriving DecidableEq

structure ExtractedArticle where
  title : Str
  pageNumber : Nat
  textContent : Str
  source : Option Str := none
  author : Option Str := none
  publishDate : Option Str := none
  wordCount : Option Nat := none
deriving DecidableEq

/-! ### Page segmenter (splitIntoPages) -/

structure Marker where
  num : Nat
  idx : Nat
deriving DecidableEq

/-- Match of the page-marker pattern (the literal word Page, a space, a
captured digit run, the literal of between spaces, a digit run) at the start
of the given text, returning the captured page number and the length of the
whole match. -/
def matchPageMarker (s : Str) : Option (Nat × Nat) :=
  match mLit ("Page ") s with
  | none => none
  | some _ =>
    let s1 := s.drop 5
    let g := s1.takeWhile isDigitC
    if g.length = 0 then none
    else
      match mLit (" of ") (s1.drop g.length) with
      | none => none
      | some _ =>
        let s2 := s1.drop (g.length + 4)
        let g2 := s2.takeWhile isDigitC
        if g2.length = 0 then none
        else some (digitsVal g, 5 + g.length + 4 + g2.length)

/-- Global scan for page markers, recording the captured number and the
start index of each match and resuming after each match, as the global
regexp exec loop does. -/
def findMarkersAux : Nat → Nat → Str → List Marker
  | 0, _, _ => []
  | _ + 1, _, [] => []
  | f + 1, pos, c :: rest =>
    match matchPageMarker (c :: rest) with
    | some (v, len) => ⟨v, pos⟩ :: findMarkersAux f (pos + len) (List.drop (len - 1) rest)
    | none => findMarkersAux f (pos + 1) rest

def findMarkers (s : Str) : List Marker := findMarkersAux s.length 0 s

/-- substring from index i (inclusive) to j (exclusive); at every call site
below the first index is at most the second, so the argument swap that the
JavaScript substring performs on reversed arguments never fires. -/
def seg (s : Str) (i j : Nat) : Str := (s.take j).drop i

/-- The untrimmed character ranges cut at the marker start indices (to the
next marker's start, or to the end of the stream for the last marker). -/
def segTexts (s : Str) : List Marker → List Str
  | [] => []
  | [m] => [s.drop m.idx]
  | m :: m' :: rest => seg s m.idx m'.idx :: segTexts s (m' :: rest)

/-- The loop body of splitIntoPages: each marker yields a page numbered by
the captured value whose text is the trimmed range up to the next marker. -/
def buildPages (s : Str) : List Marker → List Page
  | [] => []
  | [m] => [⟨m.num, jsTrim (s.drop m.idx)⟩]
  | m :: m' :: rest => ⟨m.num, jsTrim (seg s m.idx m'.idx)⟩ :: buildPages s (m' :: rest)

/-- splitIntoPages: cut the stream at the page markers, or fall back to a
single page numbered 1 holding the whole stream.  The page count argument is
advisory and unused, as in the source. -/
def splitIntoPages (fullText : Str) (pageCount : Nat) : List Page :=
  let markers := findMarkers fullText
  if markers.isEmpty then [⟨1, fullText⟩] else buildPages fullText markers

/-! ### Index locator and parser -/

def invalidTitleParts : List String :=
  ["Page", "Factiva", "Inc", "All rights reserved", "©", "Document", "Unknown", "Dow Jones"]

/-- isValidArticleTitle: reject short titles, titles holding any entry of the
exclusion vocabulary, and titles with too few letters.  The source compares
the letter count divided by the length against the floating literal 0.1;
for any realistic length the comparison agrees with the exact rational one
modelled here. -/
def isValidArticleTitle (t : Str) : Bool :=
  if t.length < 3 then false
  else if invalidTitleParts.any (fun p => strContains t p.data) then false
  else decide (t.length ≤ 10 * letterCount t)

def mIdxHeaderA : M :=
  mSeq [mLit ("Page "), mRunMin isDigitC 1, mLit (" of "), mRunMin isDigitC 1,
        mRunMin isWsC 0, mLit ("© "), mRunMin isDigitC 1,
        mLit (" Factiva, Inc. All rights reserved.")]

def mIdxHeaderB : M :=
  mSeq [mLit ("Page "), mRunMin isDigitC 1, mLit (" of "), mRunMin isDigitC 1]

def mIdxHeaderC : M :=
  mSeq [mLit ("© "), mRunMin isDigitC 1, mLit (" Factiva, Inc. All rights reserved.")]

/-- The three header replacements at the top of parseIndexPage, applied in
source order. -/
def cleanIdxText (s : Str) : Str :=
  replAll false mIdxHeaderC []
    (replAll false mIdxHeaderB []
      (replAll false mIdxHeaderA [] s))

/-- Match of the leader pattern (two or more periods, optional whitespace, a
captured digit run) at the start of the given text, returning the captured
number and the length of the whole match. -/
def matchLeader (s : Str) : Option (Nat × Nat) :=
  let d := (s.takeWhile (fun c => c == '.')).length
  if 2 ≤ d then
    let s1 := s.drop d
    let w := (s1.takeWhile isWsC).length
    let g := (s1.drop w).takeWhile isDigitC
    if 1 ≤ g.length then some (digitsVal g, d + w + g.length) else none
  else none

/-- Global scan for leader matches.  A match whose number falls outside the
open interval 1 to 500 is dropped from the result but still advances the
scan past the whole match, exactly as the exec loop does. -/
def leaderAux : Nat → Nat → Str → List (Nat × Nat)
  | 0, _, _ => []
  | _ + 1, _, [] => []
  | f + 1, pos, c :: rest =>
    match matchLeader (c :: rest) with
    | some (v, len) =>
      let recs := leaderAux f (pos + len) (List.drop (len - 1) rest)
      if 1 < v && v < 500 then (v, pos) :: recs else recs
    | none => leaderAux f (pos + 1) rest

def leaderMatches (s : Str) : List (Nat × Nat) := leaderAux s.length 0 s

/-- The title-extraction loop of parseIndexPage.  The title is the substring
from the running lastIndex to the start of the current match, trimmed, with
runs of three or more periods replaced by a space and whitespace runs
collapsed; lastIndex then advances to the match start plus the length of the
decimal representation of the captured number, exactly as in the source. -/
def titleLoop (ct : Str) : Nat → List (Nat × Nat) → List IndexEntry
  | _, [] => []
  | lastIndex, (v, idx) :: rest =>
    let titleText := jsTrim (seg ct lastIndex idx)
    let cleanTitle :=
      jsTrim (replAll false (mRunMin isWsC 1) [' ']
        (replAll false (mRunMin (fun c => c == '.') 3) [' '] titleText))
    let entries := titleLoop ct (idx + digitsLen v) rest
    if 5 ≤ cleanTitle.length && isValidArticleTitle cleanTitle then
      ⟨cleanTitle, v⟩ :: entries
    else entries

def parseIndexPage (text : Str) : List IndexEntry :=
  let cleanText := cleanIdxText text
  titleLoop cleanText 0 (leaderMatches cleanText)

/-- Keep an element exactly when the first index carrying the same page
number and title is its own index: the dedup idiom of extractArticleIndex. -/
def findFirstIdx (l : List IndexEntry) (x : IndexEntry) : Nat :=
  l.findIdx (fun b => b.pageNumber == x.pageNumber && b.title == x.title)

def uniqueAux (l : List IndexEntry) : Nat → List IndexEntry → List IndexEntry
  | _, [] => []
  | i, x :: xs =>
    if findFirstIdx l x = i then x :: uniqueAux l (i + 1) xs
    else uniqueAux l (i + 1) xs

def uniqueEntries (l : List IndexEntry) : List IndexEntry := uniqueAux l 0 l

def entryLe (a b : IndexEntry) : Prop := a.pageNumber ≤ b.pageNumber

instance : DecidableRel entryLe := fun a b => Nat.decLe a.pageNumber b.pageNumber

/-- extractArticleIndex: parse the first ten pages, deduplicate on the pair
of title and page number, and sort ascending by page number.  The JavaScript
sort with the numeric comparator is stable, which insertion sort on the
less-or-equal relation reproduces exactly. -/
def extractArticleIndex (pages : List Page) : List IndexEntry :=
  let indexPages := pages.take (min 10 pages.length)
  let articles := (indexPages.map (fun p => parseIndexPage p.text)).flatten
  List.insertionSort entryLe (uniqueEntries articles)

/-! ### Span extractor -/

/-- The inclusive integer range a..b as natural numbers (empty when b < a),
the set of page numbers the extraction loop visits. -/
def intRange (a : Nat) (b : Int) : List Nat :=
  (List.range (b + 1 - (a : Int)).toNat).map (a + ·)

/-- Concatenation of the texts of the known pages with numbers in the range,
each followed by a blank line, trimmed at the end, as the extraction loop
builds it. -/
def pageRangeText (startP : Nat) (endP : Int) (pages : List Page) : Str :=
  jsTrim (((intRange startP endP).map (fun n =>
    match pages.find? (fun p => p.pageNumber == n) with
    | some p => p.text ++ ('\n' :: '\n' :: [])
    | none => [])).flatten)

def mkArticle (pages : List Page) (e : IndexEntry) (endP : Int) : ExtractedArticle :=
  { title := e.title, pageNumber := e.pageNumber,
    textContent := pageRangeText e.pageNumber endP pages }

/-- extractArticleContents: each entry spans from its start page to one page
before the next entry's start page, and the last entry spans to the COUNT of
known pages (pages.length in the source). -/
def extractArticleContents (idx : List IndexEntry) (pages : List Page) : List ExtractedArticle :=
  match idx with
  | [] => []
  | [a] => [mkArticle pages a (pages.length : Int)]
  | a :: b :: rest =>
    mkArticle pages a ((b.pageNumber : Int) - 1) :: extractArticleContents (b :: rest) pages

/-! ### Metadata extractor -/

/-- The non-empty trimmed lines of a text, as extractMetadata prepares them. -/
def jsLines (text : Str) : List Str :=
  ((splitNl text).map jsTrim).filter (fun l => !l.isEmpty)

/-- Zero or more groups of a comma followed by exactly three digits.  A comma
followed by anything but exactly three digits (against a maximal run) makes
the whole anchored word-count pattern fail, because the tail of that pattern
cannot start with a comma or a digit. -/
def commaGroupsAux : Nat → Nat → Str → Option (Nat × Str)
  | 0, v, s => some (v, s)
  | f + 1, v, s =>
    match s with
    | ',' :: r =>
      let g := r.takeWhile isDigitC
      if g.length = 3 then commaGroupsAux f (v * 1000 + digitsVal g) (r.drop 3)
      else none
    | _ => some (v, s)

/-- The anchored word-count line pattern: one to three digits, optional
comma-grouped thousands, whitespace, the word words case-insensitively, end
of line.  Returns the numeric value with the commas stripped. -/
def wordCountLineValue (l : Str) : Option Nat :=
  let g := l.takeWhile isDigitC
  if 1 ≤ g.length ∧ g.length ≤ 3 then
    match commaGroupsAux l.length (digitsVal g) (l.drop g.length) with
    | none => none
    | some (v, s1) =>
      let w := (s1.takeWhile isWsC).length
      if 1 ≤ w ∧ (s1.drop w).map Char.toLower = ("words" : String).data then some v
      else none
  else none

/-- The anchored time-of-day pattern without the case-insensitive flag (the
guard used when deciding whether to skip a line between date and source). -/
def isTimeLine (l : Str) : Bool :=
  let g := l.takeWhile isDigitC
  if 1 ≤ g.length ∧ g.length ≤ 2 then
    match l.drop g.length with
    | ':' :: r =>
      let g2 := r.takeWhile isDigitC
      if g2.length = 2 then
        let r2 := r.drop 2
        let tail := r2.drop (r2.takeWhile isWsC).length
        tail == [] || tail == ("AM" : String).data || tail == ("PM" : String).data ||
          tail == ("am" : String).data || tail == ("pm" : String).data
      else false
    | _ => false
  else false

/-- The same time-of-day pattern with the case-insensitive flag, as used by
the source-name validity check. -/
def isTimeLineCI (l : Str) : Bool :=
  let g := l.takeWhile isDigitC
  if 1 ≤ g.length ∧ g.length ≤ 2 then
    match l.drop g.length with
    | ':' :: r =>
      let g2 := r.takeWhile isDigitC
      if g2.length = 2 then
        let r2 := r.drop 2
        let tail := (r2.drop (r2.takeWhile isWsC).length).map Char.toLower
        tail == [] || tail == ("am" : String).data || tail == ("pm" : String).data
      else false
    | _ => false
  else false

/-- The anchored date pattern: one or two digits, whitespace, a letter run,
whitespace, exactly four digits, end of line.  Returns day value, month word
and year value. -/
def dateLineParse (l : Str) : Option (Nat × Str × Nat) :=
  let d := l.takeWhile isDigitC
  if 1 ≤ d.length ∧ d.length ≤ 2 then
    let s1 := l.drop d.length
    let w1 := (s1.takeWhile isWsC).length
    if 1 ≤ w1 then
      let s2 := s1.drop w1
      let mo := s2.takeWhile isAsciiLetterC
      if 1 ≤ mo.length then
        let s3 := s2.drop mo.length
        let w2 := (s3.takeWhile isWsC).length
        if 1 ≤ w2 then
          let s4 := s3.drop w2
          if (s4.takeWhile isDigitC).length = 4 ∧ (s4.drop 4).isEmpty then
            some (digitsVal d, mo, digitsVal (s4.take 4))
          else none
        else none
      else none
    else none
  else none

def monthNames : List String :=
  ["january", "february", "march", "april", "may", "june",
   "july", "august", "september", "october", "november", "december"]

/-- Day count since the civil epoch for a year, month (1..12) and day, on
the proleptic Gregorian calendar, with floor division so that all years are
handled uniformly. -/
def daysFromCivil (y m d : Int) : Int :=
  let y2 := if m ≤ 2 then y - 1 else y
  let era := Int.fdiv y2 400
  let yoe := y2 - era * 400
  let mp := Int.emod (m + 9) 12
  let doy := Int.fdiv (153 * mp + 2) 5 + d - 1
  let doe := yoe * 365 + Int.fdiv yoe 4 - Int.fdiv yoe 100 + doy
  era * 146097 + doe - 719468

/-- Inverse of `daysFromCivil`: year, month and day from a day count. -/
def civilFromDays (z0 : Int) : Int × Int × Int :=
  let z := z0 + 719468
  let era := Int.fdiv z 146097
  let doe := z - era * 146097
  let yoe := Int.fdiv (doe - Int.fdiv doe 1460 + Int.fdiv doe 36524 - Int.fdiv doe 146096) 365
  let y := yoe + era * 400
  let doy := doe - (365 * yoe + Int.fdiv yoe 4 - Int.fdiv yoe 100)
  let mp := Int.fdiv (5 * doy + 2) 153
  let d := doy - Int.fdiv (153 * mp + 2) 5 + 1
  let m := mp + (if mp < 10 then 3 else -9)
  (if m ≤ 2 then y + 1 else y, m, d)

def natDigits : Nat → Nat → Str
  | 0, _ => []
  | f + 1, m =>
    if m < 10 then [Char.ofNat (48 + m)]
    else natDigits f (m / 10) ++ [Char.ofNat (48 + m % 10)]

def natToStr (n : Nat) : Str := natDigits (n + 1) n

def padNum (width n : Nat) : Str :=
  List.replicate (width - (natToStr n).length) '0' ++ natToStr n

/-- The date part of the ISO string: a four-digit year for years up to 9999
and a signed six-digit year beyond (the pipeline only reaches years of at
least 100, so the negative-year form never occurs). -/
def isoOfDate (y m d : Int) : Str :=
  let ystr := if y ≤ 9999 then padNum 4 y.toNat else '+' :: padNum 6 y.toNat
  ystr ++ ('-' :: padNum 2 m.toNat) ++ ('-' :: padNum 2 d.toNat)

/-- parseDate: recognise the day month-name year format, normalise through
the calendar (the Date constructor maps a year in 0..99 to 1900 plus that
year, and rolls an out-of-range day over into later months) and print the
ISO date, taking the runtime at UTC; any other format is returned verbatim. -/
def parseDate (dateText : Str) : Str :=
  match dateLineParse dateText with
  | none => dateText
  | some (day, mo, year) =>
    match (monthNames.map String.data).indexOf? (mo.map Char.toLower) with
    | none => dateText
    | some mi =>
      let y := if year ≤ 99 then 1900 + year else year
      let n := daysFromCivil (y : Int) ((mi : Int) + 1) (day : Int)
      let (yy, mm, dd) := civilFromDays n
      isoOfDate yy mm dd

/-- isValidSourceName: at least three characters, at least two letters, not a
time-of-day line, not purely numeric. -/
def isValidSourceName (t : Str) : Bool :=
  if t.length < 3 then false
  else if letterCount t < 2 then false
  else if isTimeLineCI t then false
  else if t.all isDigitC then false
  else true

/-- The word-boundary search for the word Press, case-insensitively. -/
def containsPressWord (t : Str) : Bool :=
  (List.range t.length).any (fun i =>
    ((t.drop i).take 5).map Char.toLower == ("press" : String).data &&
    (i == 0 || !isWordC (t.getD (i - 1) ' ')) &&
    (i + 5 == t.length || !isWordC (t.getD (i + 5) ' ')))

/-- isSourceLikeText: holds the word Press and has more than two words. -/
def isSourceLikeText (t : Str) : Bool :=
  if t.length < 3 then false
  else containsPressWord t && decide (2 < (jsSplitWs (jsTrim t)).length)

/-- processAuthorText: reject empty and single-word candidates; when a pipe
is present keep only the part before the first pipe, subject to the same
single-word rejection. -/
def processAuthorText (t : Str) : Option Str :=
  if (jsTrim t).isEmpty then none
  else if (jsSplitWs (jsTrim t)).length = 1 then none
  else if t.contains '|' then
    let beforePipe := jsTrim (t.takeWhile (fun c => c != '|'))
    if (jsSplitWs beforePipe).length = 1 then none else some beforePipe
  else some t

/-- The block run on the first word-count match: word count from the match,
date from the next line, source from two lines after (or three when the line
two after is a time line), author from the line before. -/
def buildMeta (lines : List Str) (i : Nat) (wc : Nat) (articleTitle : Str) : ArticleMeta :=
  let publishDate :=
    if i + 1 < lines.length then some (parseDate (lines.getD (i + 1) [])) else none
  let source :=
    if i + 2 < lines.length then
      let lineAfterDate := lines.getD (i + 2) []
      if isTimeLine lineAfterDate then
        if i + 3 < lines.length then
          let sourceLine := lines.getD (i + 3) []
          if isValidSourceName sourceLine then some sourceLine else none
        else none
      else if isValidSourceName lineAfterDate then some lineAfterDate else none
    else none
  let author :=
    if 0 < i then
      match processAuthorText (lines.getD (i - 1) []) with
      | some a =>
        if a ≠ articleTitle ∧ isSourceLikeText a = false then some a else none
      | none => none
    else none
  { source := source, author := author, publishDate := publishDate, wordCount := some wc }

/-- The scan of the first twenty non-empty lines, stopping at the first
word-count line. -/
def scanAux (lines : List Str) (articleTitle : Str) : Nat → Nat → ArticleMeta
  | 0, _ => {}
  | f + 1, i =>
    if i < min 20 lines.length then
      match wordCountLineValue (lines.getD i []) with
      | some wc => buildMeta lines i wc articleTitle
      | none => scanAux lines articleTitle f (i + 1)
    else {}

def extractMetadata (articleText : Str) (articleTitle : Str) : ArticleMeta :=
  scanAux (jsLines articleText) articleTitle 20 0

/-! ### Text normalizer (cleanFactivaText) -/

def mPatA : M :=
  mSeq [mLitCI ("Page"), mRunMin isWsC 1, mRunMin isDigitC 1, mRunMin isWsC 1,
        mLitCI ("of"), mRunMin isWsC 1, mRunMin isDigitC 1, mRunMin isWsC 0,
        mChar '©', mRunMin isWsC 0, mRunExact isDigitC 4, mRunMin isWsC 1,
        mLitCI ("Factiva, Inc."), mRunMin isWsC 1, mLitCI ("All"), mRunMin isWsC 1,
        mLitCI ("rights"), mRunMin isWsC 1, mLitCI ("reserved.")]

def mPatB : M :=
  mSeq [mLit ("Page"), mRunMin isWsC 1, mRunMin isDigitC 1, mRunMin isWsC 1,
        mLit ("of"), mRunMin isWsC 1, mRunMin isDigitC 1]

def mPatC : M :=
  mSeq [mChar '©', mRunMin isWsC 0, mRunExact isDigitC 4, mRunMin isWsC 1,
        mLitCI ("Factiva, Inc."), mRunMin isWsC 1, mLitCI ("All"), mRunMin isWsC 1,
        mLitCI ("rights"), mRunMin isWsC 1, mLitCI ("reserved.")]

def mPatD : M :=
  mSeq [mChar '©', mRunMin isWsC 0, mRunExact isDigitC 4, mRunMin isWsC 1,
        mLitCI ("Factiva, Inc.")]

def mPatE : M :=
  mSeq [mLit ("All"), mRunMin isWsC 1, mLit ("rights"), mRunMin isWsC 1, mLit ("reserved.")]

def mPatF : M := mLit ("Factiva, Inc.")

def mPatG : M := mLit ("Factiva")

def mPatH : M :=
  mSeq [mLitCI ("ISSN:"), mRunMin isWsC 0, mRunExact isDigitC 4, mChar '-',
        mTakeExact isDigitC 4]

def mPatI : M :=
  mSeq [mLitCI ("Volume"), mRunMin isWsC 1, mRunMin isDigitC 1, mChar ';',
        mRunMin isWsC 0, mLitCI ("Issue"), mRunMin isWsC 1, mRunMin isDigitC 1]

def mPatJ : M :=
  mSeq [mLitCI ("Vol."), mRunMin isWsC 0, mRunMin isDigitC 1, mChar ';',
        mRunMin isWsC 0, mLitCI ("Issue"), mRunMin isWsC 1, mRunMin isDigitC 1]

def mPatK : M := mSeq [mLitCI ("Document"), mRunMin isWsC 1, mRunMin isDigitC 1]

def mPatL : M := mLit ("English")

def mPatM : M := mSeq [mRunMin isDigitC 1, mChar '-', mRunMin isDigitC 1]

def mProvTail : M := mSeq [mLitCI ("provided"), mRunMin isWsC 1, mLitCI ("by")]

/-- The credit-line pattern: copyright sign, optional whitespace, four
digits, then whitespace and a non-empty period-free region up to the words
provided by.  The greedy period-free repetition backtracks from the far end,
so the match runs to the LAST provided-whitespace-by occurrence inside the
period-free region. -/
def mPatN : M := fun s =>
  match mSeq [mChar '©', mRunMin isWsC 0, mRunExact isDigitC 4] s with
  | none => none
  | some pre =>
    let rest := s.drop pre
    match rest with
    | c :: tailR =>
      if isWsC c then
        let bound := 1 + (tailR.takeWhile (fun d => d != '.')).length
        match (List.range (bound + 1)).reverse.findSome? (fun t =>
          if 2 ≤ t then (mProvTail (rest.drop t)).map (t + ·) else none) with
        | some e => some (pre + e)
        | none => none
      else none
    | [] => none

def mPatO : M := mSeq [mLit ("Volume"), mRunMin isWsC 1, mRunMin isDigitC 1]

def mPatP : M := mSeq [mLit ("Issue"), mRunMin isWsC 1, mRunMin isDigitC 1]

def mPatQ : M := mSeq [mLit ("Document"), mRunMin isWsC 1, mRunMin isDigitC 1]

/-- The header and footer removal rules in source order; the flag marks the
patterns anchored to whole lines under the multiline flag. -/
def boilerplatePatterns : List (Bool × M) :=
  [(false, mPatA), (true, mPatB), (false, mPatC), (false, mPatD), (true, mPatE),
   (true, mPatF), (true, mPatG),
   (false, mPatH), (false, mPatI), (false, mPatJ), (false, mPatK), (true, mPatL),
   (true, mPatM), (false, mPatN), (true, mPatO), (true, mPatP), (true, mPatQ)]

def removeBoilerplate (s : Str) : Str :=
  boilerplatePatterns.foldl (fun acc p => replAll p.1 p.2 [] acc) s

/-- The pattern of a newline, whitespace, a newline, whitespace and a third
newline.  With greedy backtracking the optional whitespace stretches as far
as possible, so a match runs from a leading newline to the LAST newline of
the whitespace run it starts, and exists exactly when that run holds at
least three newlines. -/
def mTripleNl : M := fun s =>
  match s with
  | [] => none
  | c :: _ =>
    if c = '\n' then
      let w := s.takeWhile isWsC
      let ps := (List.range w.length).filter (fun i => w.get? i == some '\n')
      if 3 ≤ ps.length then (ps.getLast?).map (· + 1) else none
    else none

/-- The pattern of whitespace then a newline: with greedy backtracking the
match runs to the last newline, at position at least one, of the whitespace
run at the current position. -/
def mWsThenNl : M := fun s =>
  let w := s.takeWhile isWsC
  let ps := (List.range w.length).filter (fun i => i != 0 && w.get? i == some '\n')
  (ps.getLast?).map (· + 1)

def mNlWsPlus : M := mSeq [mChar '\n', mRunMin isWsC 1]

def mWsPlus : M := mRunMin isWsC 1

/-- The whitespace normalisation chain at the end of cleanFactivaText, in
source order: collapse three-plus newline groups to a blank line, trim the
ends, collapse EVERY whitespace run (newlines included) to a single space,
then the two newline-adjacent rules (vacuous after the previous step). -/
def wsCleanup (s : Str) : Str :=
  let s1 := replAll false mTripleNl ('\n' :: '\n' :: []) s
  let s2 := jsTrim s1
  let s3 := replAll false mWsPlus [' '] s2
  let s4 := replAll false mNlWsPlus ['\n'] s3
  replAll false mWsThenNl ['\n'] s4

/-- cleanFactivaText: the guard returns a falsy text unchanged, then the
boilerplate removals run in order followed by whitespace normalisation. -/
def cleanFactivaText (text : Str) : Str :=
  if text.isEmpty then text else wsCleanup (removeBoilerplate text)

/-! ### Validator and pipeline -/

/-- filterArticles: keep an article exactly when its text is non-empty and
within the 50000-character ceiling. -/
def filterArticles (articles : List ExtractedArticle) : List ExtractedArticle :=
  articles.filter (fun a => !a.textContent.isEmpty && a.textContent.length ≤ 50000)

/-- The metadata merge, assigning the extracted fields onto the article. -/
def applyMeta (a : ExtractedArticle) (m : ArticleMeta) : ExtractedArticle :=
  { a with source := m.source, author := m.author,
           publishDate := m.publishDate, wordCount := m.wordCount }

/-- The post-decoding pipeline of extractArticles: segmentation, index
parsing, span extraction, metadata extraction, normalisation, filtering. -/
def extractArticlesCore (fullText : Str) (pageCount : Nat) : List ExtractedArticle :=
  let pages := splitIntoPages fullText pageCount
  let articleIndex := extractArticleIndex pages
  let articles := (extractArticleContents articleIndex pages).map
    (fun a => applyMeta a (extractMetadata a.textContent a.title))
  let cleaned := articles.map (fun a => { a with textContent := cleanFactivaText a.textContent })
  filterArticles cleaned

/-! ### Concrete inputs used by the theorems below -/

/-- Twenty pages numbered 1..20, as in the span-computation example. -/
def exPages20 : List Page :=
  [⟨1, ("P1" : String).data⟩, ⟨2, ("P2" : String).data⟩, ⟨3, ("P3" : String).data⟩,
   ⟨4, ("P4" : String).data⟩, ⟨5, ("P5" : String).data⟩, ⟨6, ("P6" : String).data⟩,
   ⟨7, ("P7" : String).data⟩, ⟨8, ("P8" : String).data⟩, ⟨9, ("P9" : String).data⟩,
   ⟨10, ("P10" : String).data⟩, ⟨11, ("P11" : String).data⟩, ⟨12, ("P12" : String).data⟩,
   ⟨13, ("P13" : String).data⟩, ⟨14, ("P14" : String).data⟩, ⟨15, ("P15" : String).data⟩,
   ⟨16, ("P16" : String).data⟩, ⟨17, ("P17" : String).data⟩, ⟨18, ("P18" : String).data⟩,
   ⟨19, ("P19" : String).data⟩, ⟨20, ("P20" : String).data⟩]

/-! ### Helper lemmas -/

/-- Everything the filter keeps has non-empty text within the ceiling. -/
theorem filterArticles_sub {a : ExtractedArticle} {l : List ExtractedArticle}
    (h : a ∈ filterArticles l) : a.textContent ≠ [] ∧ a.textContent.length ≤ 50000 := by
  have hp := (List.mem_filter.mp h).2
  simp only [Bool.and_eq_true, Bool.not_eq_true', List.isEmpty_eq_false_iff_exists_mem,
    decide_eq_true_eq] at hp
  obtain ⟨⟨x, hx⟩, hlen⟩ := hp
  exact ⟨fun hnil => by simp [hnil] at hx, hlen⟩

/-- The span extractor yields one intermediate article per index entry. -/
theorem extractArticleContents_length (idx : List IndexEntry) (pages : List Page) :
    (extractArticleContents idx pages).length = idx.length := by
  induction idx with
  | nil => rfl
  | cons a rest ih =>
    cases rest with
    | nil => rfl
    | cons b t => simpa [extractArticleContents] using ih

/-- Position-wise description of the span extractor: entry i spans to one
page before entry i+1's start page, and the last entry spans to the count of
known pages. -/
theorem extractArticleContents_get (idx : List IndexEntry) (pages : List Page) :
    ∀ (i : Nat) (h : i < idx.length),
    (extractArticleContents idx pages).get
        ⟨i, by rw [extractArticleContents_length]; exact h⟩ =
      mkArticle pages (idx.get ⟨i, h⟩)
        (if h2 : i + 1 < idx.length then ((idx.get ⟨i + 1, h2⟩).pageNumber : Int) - 1
         else (pages.length : Int)) := by
  induction idx with
  | nil => intro i h; exact absurd h (by simp)
  | cons a rest ih =>
    intro i h
    cases rest with
    | nil =>
      cases i with
      | zero => simp [extractArticleContents]
      | succ j => simp at h
    | cons b t =>
      cases i with
      | zero => simp [extractArticleContents]
      | succ j =>
        have hj : j < (b :: t).length := Nat.lt_of_succ_lt_succ h
        have := ih j hj
        simpa [extractArticleContents, List.get] using this

/-- A page range that ends one page before it starts is empty, so its text is
empty. -/
theorem pageRangeText_self_pred (p : Nat) (pages : List Page) :
    pageRangeText p ((p : Int) - 1) pages = [] := by
  unfold pageRangeText intRange
  have h0 : ((p : Int) - 1 + 1 - (p : Int)) = 0 := by ring
  rw [h0]
  simp [jsTrim]

theorem getLast?_cons_ne_nil {α : Type} (x : α) {l : List α} (h : l ≠ []) :
    (x :: l).getLast? = l.getLast? := by
  cases l with
  | nil => exact absurd rfl h
  | cons y ys => exact List.getLast?_cons_cons

/-- The last article produced by the span extractor always ends at the COUNT
of known pages. -/
theorem extractArticleContents_getLast? (idx : List IndexEntry) (pages : List Page)
    (h : idx ≠ []) :
    (extractArticleContents idx pages).getLast? =
      some (mkArticle pages (idx.getLast h) (pages.length : Int)) := by
  induction idx with
  | nil => exact absurd rfl h
  | cons a rest ih =>
    cases rest with
    | nil => rfl
    | cons b t =>
      have hne : extractArticleContents (b :: t) pages ≠ [] := by
        intro hnil
        have hl := extractArticleContents_length (b :: t) pages
        rw [hnil] at hl
        simp at hl
      have hstep : extractArticleContents (a :: b :: t) pages =
          mkArticle pages a ((b.pageNumber : Int) - 1) :: extractArticleContents (b :: t) pages :=
        rfl
      rw [hstep, getLast?_cons_ne_nil _ hne, ih (by simp)]
      have hlast : (a :: b :: t).getLast h = (b :: t).getLast (by simp) :=
        List.getLast_cons _
      rw [hlast]

theorem findFirstIdx_eq_of_key_eq {x y : IndexEntry} (l : List IndexEntry)
    (hp : x.pageNumber = y.pageNumber) (ht : x.title = y.title) :
    findFirstIdx l x = findFirstIdx l y := by
  unfold findFirstIdx
  congr 1
  funext b
  rw [hp, ht]

theorem le_findFirstIdx_of_mem_uniqueAux {l : List IndexEntry} {y : IndexEntry} :
    ∀ {i : Nat} {xs : List IndexEntry}, y ∈ uniqueAux l i xs → i ≤ findFirstIdx l y := by
  intro i xs
  induction xs generalizing i with
  | nil => intro h; simp [uniqueAux] at h
  | cons x xs ih =>
    intro h
    unfold uniqueAux at h
    by_cases hx : findFirstIdx l x = i
    · rw [if_pos hx] at h
      rcases List.mem_cons.mp h with rfl | h2
      · exact Nat.le_of_eq hx.symm
      · exact Nat.le_of_succ_le (ih h2)
    · rw [if_neg hx] at h
      exact Nat.le_of_succ_le (ih h)

/-- The dedup loop never keeps two entries agreeing on both fields. -/
theorem pairwise_uniqueAux (l : List IndexEntry) :
    ∀ (i : Nat) (xs : List IndexEntry),
      List.Pairwise (fun a b => ¬(a.title = b.title ∧ a.pageNumber = b.pageNumber))
        (uniqueAux l i xs) := by
  intro i xs
  induction xs generalizing i with
  | nil => simp [uniqueAux]
  | cons x xs ih =>
    unfold uniqueAux
    by_cases hx : findFirstIdx l x = i
    · rw [if_pos hx]
      refine List.Pairwise.cons ?_ (ih (i + 1))
      intro y hy hk
      have h1 := le_findFirstIdx_of_mem_uniqueAux hy
      have h2 := findFirstIdx_eq_of_key_eq l hk.2 hk.1
      rw [hx] at h2
      omega
    · rw [if_neg hx]
      exact ih (i + 1)

instance : IsTotal IndexEntry entryLe := ⟨fun a b => Nat.le_total a.pageNumber b.pageNumber⟩

instance : IsTrans IndexEntry entryLe := ⟨fun _ _ _ h1 h2 => Nat.le_trans h1 h2⟩

/-- A cut segment followed by the remainder from the cut point restores the
remainder from the segment's start. -/
theorem seg_append_drop (s : Str) {i j : Nat} (hij : i ≤ j) :
    seg s i j ++ s.drop j = s.drop i := by
  unfold seg
  conv_rhs => rw [← List.take_append_drop j s]
  rw [List.drop_append_eq_append_drop]
  by_cases hc : i ≤ (List.take j s).length
  · rw [Nat.sub_eq_zero_of_le hc, List.drop_zero]
  · push_neg at hc
    have hlt := List.length_take j s
    have hsl : s.length < i := by
      rw [hlt] at hc
      omega
    rw [List.drop_eq_nil_of_le (le_of_lt hc),
        List.drop_eq_nil_of_le (by omega : s.length ≤ j), List.drop_nil]

/-- Every marker found from a position has an index at least that position. -/
theorem findMarkersAux_ge :
    ∀ (f pos : Nat) (s : Str) (m : Marker), m ∈ findMarkersAux f pos s → pos ≤ m.idx := by
  intro f
  induction f with
  | zero => intro pos s m h; simp [findMarkersAux] at h
  | succ f ih =>
    intro pos s m h
    cases s with
    | nil => simp [findMarkersAux] at h
    | cons c rest =>
      unfold findMarkersAux at h
      cases hm : matchPageMarker (c :: rest) with
      | none =>
        rw [hm] at h
        exact Nat.le_of_succ_le (ih (pos + 1) rest m h)
      | some vl =>
        rw [hm] at h
        rcases List.mem_cons.mp h with rfl | h2
        · exact Nat.le_refl _
        · exact le_trans (Nat.le_add_right pos vl.2) (ih _ _ m h2)

/-- The marker indices are found in non-decreasing order. -/
theorem findMarkersAux_chain :
    ∀ (f pos : Nat) (s : Str),
      List.Chain' (fun a b : Marker => a.idx ≤ b.idx) (findMarkersAux f pos s) := by
  intro f
  induction f with
  | zero => intro pos s; simp [findMarkersAux]
  | succ f ih =>
    intro pos s
    cases s with
    | nil => simp [findMarkersAux]
    | cons c rest =>
      unfold findMarkersAux
      cases hm : matchPageMarker (c :: rest) with
      | none => exact ih (pos + 1) rest
      | some vl =>
        refine List.chain'_cons'.mpr ⟨?_, ih _ _⟩
        intro b hb
        have hmem := List.mem_of_mem_head? hb
        exact le_trans (Nat.le_add_right pos vl.2) (findMarkersAux_ge f _ _ b hmem)

/-- In-order concatenation of the untrimmed segments restores the stream
from the first marker's start index on. -/
theorem segTexts_flatten (s : Str) :
    ∀ ms : List Marker, List.Chain' (fun a b : Marker => a.idx ≤ b.idx) ms →
      (segTexts s ms).flatten = s.drop ((ms.headD ⟨0, 0⟩).idx) ∨ ms = [] := by
  intro ms
  induction ms with
  | nil => exact fun _ => Or.inr rfl
  | cons m rest ih =>
    intro hch
    left
    cases rest with
    | nil => simp [segTexts]
    | cons m2 t =>
      obtain ⟨hle, hch2⟩ := List.chain'_cons.mp hch
      show (seg s m.idx m2.idx :: segTexts s (m2 :: t)).flatten = s.drop m.idx
      rcases ih hch2 with hflat | hnil
      · rw [List.flatten_cons, hflat]
        simpa using seg_append_drop s hle
      · exact absurd hnil (by simp)

/-- The page list mirrors the marker list: trimmed segment texts and the
captured page numbers, one page per marker. -/
theorem buildPages_spec (s : Str) :
    ∀ ms : List Marker,
      (buildPages s ms).map Page.text = (segTexts s ms).map jsTrim ∧
      (buildPages s ms).map Page.pageNumber = ms.map Marker.num ∧
      (buildPages s ms).length = ms.length := by
  intro ms
  induction ms with
  | nil => exact ⟨rfl, rfl, rfl⟩
  | cons m rest ih =>
    cases rest with
    | nil => exact ⟨rfl, rfl, rfl⟩
    | cons m2 t =>
      obtain ⟨h1, h2, h3⟩ := ih
      refine ⟨?_, ?_, ?_⟩
      · show (⟨m.num, jsTrim (seg s m.idx m2.idx)⟩ :: buildPages s (m2 :: t)).map Page.text =
          (seg s m.idx m2.idx :: segTexts s (m2 :: t)).map jsTrim
        simp [h1]
      · show (⟨m.num, jsTrim (seg s m.idx m2.idx)⟩ :: buildPages s (m2 :: t)).map
            Page.pageNumber = (m :: m2 :: t).map Marker.num
        simp [h2]
      · show (⟨m.num, jsTrim (seg s m.idx m2.idx)⟩ :: buildPages s (m2 :: t)).length =
          (m :: m2 :: t).length
        simp [h3]

/-! ### Claim theorems -/

/-- C3 counterexample: on the input xPage 1 of 1 followed by a space, with
exactly one page marker, the segmenter produces one page but its text is the
trimmed tail from the marker on: the character before the first marker and
the trailing space are gone, so the concatenation is not the original
stream. -/
theorem c3_counterexample :
    (findMarkers ("xPage 1 of 1 " : String).data).length = 1 ∧
    (splitIntoPages ("xPage 1 of 1 " : String).data 1).map Page.text =
      [("Page 1 of 1" : String).data] ∧
    ((splitIntoPages ("xPage 1 of 1 " : String).data 1).map Page.text).flatten ≠
      ("xPage 1 of 1 " : String).data := by
  exact ⟨by decide, by decide, by decide⟩

/-- C3 (amended): with N page-marker matches (N at least 1) the segmenter
yields exactly N pages carrying the captured page numbers; each page's text
is the whitespace-TRIMMED segment from its marker's start to the next
marker's start (or the end of the stream), and the in-order concatenation of
the UNTRIMMED segments restores the stream from the first marker's start
index on — so the round trip is lossless only from the first marker onward
and up to the trimming at segment ends. -/
theorem c3_segmentation (s : Str) (n : Nat) (h : findMarkers s ≠ []) :
    (splitIntoPages s n).length = (findMarkers s).length ∧
    (splitIntoPages s n).map Page.text = (segTexts s (findMarkers s)).map jsTrim ∧
    (splitIntoPages s n).map Page.pageNumber = (findMarkers s).map Marker.num ∧
    (segTexts s (findMarkers s)).flatten =
      s.drop (((findMarkers s).headD ⟨0, 0⟩).idx) := by
  have hsplit : splitIntoPages s n = buildPages s (findMarkers s) := by
    unfold splitIntoPages
    rw [if_neg]
    intro hemp
    exact h (List.isEmpty_iff.mp hemp)
  have hb := buildPages_spec s (findMarkers s)
  have hflat := segTexts_flatten s (findMarkers s) (findMarkersAux_chain s.length 0 s)
  refine ⟨?_, ?_, ?_, ?_⟩
  · rw [hsplit]; exact hb.2.2
  · rw [hsplit]; exact hb.1
  · rw [hsplit]; exact hb.2.1
  · rcases hflat with hf | hnil
    · exact hf
    · exact absurd hnil h

/-- C3 witness: the amended statement at a stream with two markers and a
dropped one-character preamble. -/
theorem c3_segmentation_witness :
    findMarkers ("aPage 1 of 2 bPage 2 of 2 c" : String).data ≠ [] ∧
    (splitIntoPages ("aPage 1 of 2 bPage 2 of 2 c" : String).data 2).length =
      (findMarkers ("aPage 1 of 2 bPage 2 of 2 c" : String).data).length ∧
    (segTexts ("aPage 1 of 2 bPage 2 of 2 c" : String).data
        (findMarkers ("aPage 1 of 2 bPage 2 of 2 c" : String).data)).flatten =
      (("aPage 1 of 2 bPage 2 of 2 c" : String).data).drop
        (((findMarkers ("aPage 1 of 2 bPage 2 of 2 c" : String).data).headD ⟨0, 0⟩).idx) := by
  have h := c3_segmentation (("aPage 1 of 2 bPage 2 of 2 c" : String).data) 2 (by decide)
  exact ⟨by decide, h.1, h.2.2.2⟩

/-- The line scan of extractMetadata stops at the first word-count line:
when no line before position i matches and line i does, the result is the
block built at position i. -/
theorem scanAux_first_match (lines : List Str) (title : Str) {i wc : Nat} :
    ∀ (f i0 : Nat), i0 ≤ i → i < i0 + f → i < min 20 lines.length →
      (∀ j, i0 ≤ j → j < i → wordCountLineValue (lines.getD j []) = none) →
      wordCountLineValue (lines.getD i []) = some wc →
      scanAux lines title f i0 = buildMeta lines i wc title := by
  intro f
  induction f with
  | zero => intro i0 h1 h2 _ _ _; omega
  | succ f ih =>
    intro i0 h1 h2 hmin hnone hwc
    unfold scanAux
    rcases Nat.eq_or_lt_of_le h1 with rfl | hlt
    · rw [if_pos hmin, hwc]
    · have h0 : i0 < min 20 lines.length := lt_of_le_of_lt h1 hmin
      rw [if_pos h0, hnone i0 (Nat.le_refl i0) hlt]
      exact ih (i0 + 1) hlt (by omega) hmin
        (fun j hj1 hj2 => hnone j (Nat.le_of_succ_le hj1) hj2) hwc

/-- C5 counterexample: with the three consecutive lines 999 words, a date
and the line 12, the claim as stated makes the source the line two after the
word-count line, namely 12; the code rejects it by the source-validity
checks (purely numeric, fewer than two letters) and leaves source unset. -/
theorem c5_counterexample :
    (extractMetadata ("999 words\n1 September 2025\n12" : String).data
        ("T" : String).data).source = none ∧
    (extractMetadata ("999 words\n1 September 2025\n12" : String).data
        ("T" : String).data).source ≠ some (("12" : String).data) := by
  exact ⟨by decide, by decide⟩

/-- C5 (amended): on the FIRST word-count line at position i among the first
twenty non-empty trimmed lines, wordCount is the integer with commas
stripped; publishDate is the parse of the next line WHEN that line exists;
the source is the line two positions after when it exists, is no time line
and passes the source-validity checks, and the line three positions after
when the line two after is a time line and the one three after exists and
passes the checks; the two concrete scenarios of the claim hold as stated. -/
theorem c5_metadata_positions (articleText articleTitle : Str) (i wc : Nat)
    (hi : i < min 20 (jsLines articleText).length)
    (hwc : wordCountLineValue ((jsLines articleText).getD i []) = some wc)
    (hfirst : ∀ j, j < i → wordCountLineValue ((jsLines articleText).getD j []) = none) :
    (extractMetadata articleText articleTitle).wordCount = some wc ∧
    (i + 1 < (jsLines articleText).length →
      (extractMetadata articleText articleTitle).publishDate =
        some (parseDate ((jsLines articleText).getD (i + 1) []))) ∧
    ((jsLines articleText).length ≤ i + 1 →
      (extractMetadata articleText articleTitle).publishDate = none) ∧
    (i + 2 < (jsLines articleText).length →
      isTimeLine ((jsLines articleText).getD (i + 2) []) = false →
      isValidSourceName ((jsLines articleText).getD (i + 2) []) = true →
      (extractMetadata articleText articleTitle).source =
        some ((jsLines articleText).getD (i + 2) [])) ∧
    (i + 3 < (jsLines articleText).length →
      isTimeLine ((jsLines articleText).getD (i + 2) []) = true →
      isValidSourceName ((jsLines articleText).getD (i + 3) []) = true →
      (extractMetadata articleText articleTitle).source =
        some ((jsLines articleText).getD (i + 3) [])) ∧
    extractMetadata ("1,204 words\n1 September 2025\nABC News" : String).data
        ("T" : String).data =
      { source := some (("ABC News" : String).data), author := none,
        publishDate := some (("2025-09-01" : String).data), wordCount := some 1204 } ∧
    extractMetadata ("1,204 words\n1 September 2025\n04:37 PM\nABC News" : String).data
        ("T" : String).data =
      { source := some (("ABC News" : String).data), author := none,
        publishDate := some (("2025-09-01" : String).data), wordCount := some 1204 } := by
  have hle20 := Nat.min_le_left 20 (jsLines articleText).length
  have hscan : extractMetadata articleText articleTitle =
      buildMeta (jsLines articleText) i wc articleTitle := by
    unfold extractMetadata
    exact scanAux_first_match (jsLines articleText) articleTitle 20 0 (Nat.zero_le i)
      (by omega) hi (fun j _ hj => hfirst j hj) hwc
  refine ⟨?_, ?_, ?_, ?_, ?_, by decide, by decide⟩
  · rw [hscan]; rfl
  · intro h2
    rw [hscan]
    show (if i + 1 < (jsLines articleText).length
      then some (parseDate ((jsLines articleText).getD (i + 1) [])) else none) =
      some (parseDate ((jsLines articleText).getD (i + 1) []))
    rw [if_pos h2]
  · intro h2
    rw [hscan]
    show (if i + 1 < (jsLines articleText).length
      then some (parseDate ((jsLines articleText).getD (i + 1) [])) else none) = none
    rw [if_neg (by omega)]
  · intro h2 htime hvalid
    rw [hscan]
    show (if i + 2 < (jsLines articleText).length then
        (if isTimeLine ((jsLines articleText).getD (i + 2) []) then
          (if i + 3 < (jsLines articleText).length then
            (if isValidSourceName ((jsLines articleText).getD (i + 3) [])
             then some ((jsLines articleText).getD (i + 3) []) else none)
           else none)
         else if isValidSourceName ((jsLines articleText).getD (i + 2) [])
         then some ((jsLines articleText).getD (i + 2) []) else none)
       else none) = some ((jsLines articleText).getD (i + 2) [])
    rw [if_pos h2, if_neg (by rw [htime]; exact Bool.false_ne_true), if_pos hvalid]
  · intro h2 htime hvalid
    rw [hscan]
    show (if i + 2 < (jsLines articleText).length then
        (if isTimeLine ((jsLines articleText).getD (i + 2) []) then
          (if i + 3 < (jsLines articleText).length then
            (if isValidSourceName ((jsLines articleText).getD (i + 3) [])
             then some ((jsLines articleText).getD (i + 3) []) else none)
           else none)
         else if isValidSourceName ((jsLines articleText).getD (i + 2) [])
         then some ((jsLines articleText).getD (i + 2) []) else none)
       else none) = some ((jsLines articleText).getD (i + 3) [])
    rw [if_pos (by omega : i + 2 < (jsLines articleText).length), if_pos htime,
        if_pos h2, if_pos hvalid]

theorem dropWhile_eq_drop_len (p : Char → Bool) :
    ∀ l : Str, l.drop (l.takeWhile p).length = l.dropWhile p := by
  intro l
  induction l with
  | nil => rfl
  | cons c t ih =>
    by_cases hc : p c
    · rw [List.takeWhile_cons_of_pos hc, List.dropWhile_cons_of_pos hc]
      simpa using ih
    · rw [List.takeWhile_cons_of_neg hc, List.dropWhile_cons_of_neg hc]
      rfl

theorem head?_dropWhile_false (p : Char → Bool) :
    ∀ (l : Str) (c : Char), (l.dropWhile p).head? = some c → p c = false := by
  intro l
  induction l with
  | nil => intro c h; simp at h
  | cons d t ih =>
    intro c h
    by_cases hd : p d
    · rw [List.dropWhile_cons_of_pos hd] at h
      exact ih c h
    · rw [List.dropWhile_cons_of_neg hd] at h
      rw [List.head?_cons, Option.some.injEq] at h
      rw [← h]
      exact Bool.not_eq_true _ ▸ (Bool.of_not_eq_true hd)

theorem getLast?_dropWhile (p : Char → Bool) :
    ∀ l : Str, l.dropWhile p ≠ [] → (l.dropWhile p).getLast? = l.getLast? := by
  intro l
  induction l with
  | nil => intro h; exact absurd rfl h
  | cons d t ih =>
    intro h
    by_cases hd : p d
    · rw [List.dropWhile_cons_of_pos hd] at h ⊢
      have ht : t ≠ [] := by
        intro hnil
        rw [hnil] at h
        exact h rfl
      rw [ih h, getLast?_cons_ne_nil d ht]
    · rw [List.dropWhile_cons_of_neg hd]

/-- The start of the string after trimming is never whitespace. -/
theorem jsTrim_head (s : Str) : ∀ c, (jsTrim s).head? = some c → isWsC c = false := by
  intro c h
  unfold jsTrim at h
  rw [List.head?_reverse] at h
  by_cases hnil : (s.dropWhile isWsC).reverse.dropWhile isWsC = []
  · rw [hnil] at h
    simp at h
  · rw [getLast?_dropWhile isWsC _ hnil, List.getLast?_reverse] at h
    exact head?_dropWhile_false isWsC _ c h

/-- The end of the string after trimming is never whitespace. -/
theorem jsTrim_last (s : Str) : ∀ c, (jsTrim s).getLast? = some c → isWsC c = false := by
  intro c h
  unfold jsTrim at h
  rw [List.getLast?_reverse] at h
  exact head?_dropWhile_false isWsC _ c h

/-- Trimming a string that starts and ends with non-whitespace changes
nothing. -/
theorem jsTrim_id (s : Str)
    (h1 : ∀ c, s.head? = some c → isWsC c = false)
    (h2 : ∀ c, s.getLast? = some c → isWsC c = false) : jsTrim s = s := by
  unfold jsTrim
  have hd : s.dropWhile isWsC = s := by
    cases s with
    | nil => rfl
    | cons c t =>
      rw [List.dropWhile_cons_of_neg]
      rw [h1 c rfl]
      exact Bool.false_ne_true
  rw [hd]
  have hd2 : s.reverse.dropWhile isWsC = s.reverse := by
    cases hrev : s.reverse with
    | nil => rfl
    | cons c t =>
      rw [List.dropWhile_cons_of_neg]
      have : s.getLast? = some c := by
        rw [← List.head?_reverse, hrev, List.head?_cons]
      rw [h2 c this]
      exact Bool.false_ne_true
  rw [hd2, List.reverse_reverse]

/-- Unfolding step for the unanchored replacement scan at a position where
the pattern does not match. -/
theorem replAux_false_cons_none (m : M) (r : Str) (f : Nat) (ls : Bool) (c : Char)
    (rest : Str) (hm : m (c :: rest) = none) :
    replAux m r false (f + 1) ls (c :: rest) = c :: replAux m r false f (isLineTermC c) rest := by
  have h1 : (if (false && !ls) = true then none else m (c :: rest)) = none := by
    cases ls <;> simpa using hm
  rw [replAux, h1]

/-- Unfolding step for the unanchored replacement scan at a position where
the pattern matches a non-empty region. -/
theorem replAux_false_cons_some (m : M) (r : Str) (f : Nat) (ls : Bool) (c : Char)
    (rest : Str) (n : Nat) (hm : m (c :: rest) = some (n + 1)) :
    replAux m r false (f + 1) ls (c :: rest) =
      r ++ replAux m r false f false (List.drop n rest) := by
  have h1 : (if (false && !ls) = true then none else m (c :: rest)) = some (n + 1) := by
    cases ls <;> simpa using hm
  rw [replAux, h1]
  simp only [Bool.false_and, Bool.false_eq_true, if_false, Nat.succ_ne_zero,
    Nat.add_sub_cancel]

theorem replAux_nil (m : M) (r : Str) (anch : Bool) (f : Nat) (ls : Bool) :
    replAux m r anch f ls [] = [] := by
  cases f <;> rfl

/-- A pattern that can never match leaves the scan as the identity. -/
theorem replAux_id_of_none {m : M} (r : Str) (anch : Bool)
    (P : Str → Prop)
    (hm : ∀ t : Str, P t → m t = none)
    (htail : ∀ (c : Char) (t : Str), P (c :: t) → P t) :
    ∀ (f : Nat) (ls : Bool) (s : Str), P s → replAux m r anch f ls s = s := by
  intro f
  induction f with
  | zero => intro ls s _; rfl
  | succ f ih =>
    intro ls s hp
    cases s with
    | nil => rfl
    | cons c rest =>
      unfold replAux
      have hmm : m (c :: rest) = none := hm _ hp
      have hscrut : (if anch && !ls then none else m (c :: rest)) = none := by
        cases anch && !ls with
        | true => rfl
        | false => simpa using hmm
      rw [hscrut]
      exact congrArg (c :: ·) (ih (isLineTermC c) rest (htail c rest hp))

theorem mWsPlus_cons_neg {c : Char} (rest : Str) (hc : isWsC c = false) :
    mWsPlus (c :: rest) = none := by
  unfold mWsPlus mRunMin
  rw [List.takeWhile_cons_of_neg (by rw [hc]; exact Bool.false_ne_true)]
  rfl

theorem mWsPlus_cons_pos {c : Char} (rest : Str) (hc : isWsC c = true) :
    mWsPlus (c :: rest) = some ((rest.takeWhile isWsC).length + 1) := by
  unfold mWsPlus mRunMin
  rw [List.takeWhile_cons_of_pos hc]
  simp

/-- Full characterisation of the run-collapsing step: every whitespace
character of the output is a plain space, no two consecutive characters are
both whitespace, the output is empty only for empty input, and the head is
the input's head when that is not whitespace and a space when it is. -/
theorem step3_spec :
    ∀ (f : Nat) (ls : Bool) (s : Str), s.length ≤ f →
      (∀ c ∈ replAux mWsPlus [' '] false f ls s, isWsC c = true → c = ' ') ∧
      List.Chain' (fun a b => ¬(isWsC a = true ∧ isWsC b = true))
        (replAux mWsPlus [' '] false f ls s) ∧
      (replAux mWsPlus [' '] false f ls s = [] ↔ s = []) ∧
      (∀ c, s.head? = some c → isWsC c = false →
        (replAux mWsPlus [' '] false f ls s).head? = some c) ∧
      (∀ c, s.head? = some c → isWsC c = true →
        (replAux mWsPlus [' '] false f ls s).head? = some ' ') := by
  intro f
  induction f with
  | zero =>
    intro ls s hlen
    have hs : s = [] := List.length_eq_zero.mp (Nat.le_zero.mp hlen)
    subst hs
    refine ⟨by simp [replAux], by simp [replAux], by simp [replAux], ?_, ?_⟩ <;>
      intro c h <;> simp at h
  | succ f ih =>
    intro ls s hlen
    cases s with
    | nil =>
      refine ⟨by simp [replAux], by simp [replAux], by simp [replAux], ?_, ?_⟩ <;>
        intro c h <;> simp at h
    | cons c rest =>
      by_cases hc : isWsC c = true
      · rw [replAux_false_cons_some mWsPlus [' '] f ls c rest _ (mWsPlus_cons_pos rest hc),
            dropWhile_eq_drop_len isWsC rest, List.singleton_append]
        have hlen2 : (rest.dropWhile isWsC).length ≤ f := by
          have h1 := List.Sublist.length_le (List.dropWhile_sublist (l := rest) isWsC)
          simp only [List.length_cons] at hlen
          omega
        obtain ⟨q1, q2, q3, q4, q5⟩ := ih false (rest.dropWhile isWsC) hlen2
        refine ⟨?_, ?_, ?_, ?_, ?_⟩
        · intro d hd hw
          rcases List.mem_cons.mp hd with rfl | hd2
          · rfl
          · exact q1 d hd2 hw
        · refine List.chain'_cons'.mpr ⟨?_, q2⟩
          intro y hy hk
          have hyhead : (replAux mWsPlus [' '] false f false
              (rest.dropWhile isWsC)).head? = some y := hy
          have hymem := List.mem_of_mem_head? hy
          have hyws : isWsC y = true := hk.2
          -- the recursive input starts with a non-whitespace character,
          -- so the head of its output cannot be whitespace
          cases hhd : (rest.dropWhile isWsC).head? with
          | none =>
            have : rest.dropWhile isWsC = [] := by
              cases hrw : rest.dropWhile isWsC with
              | nil => rfl
              | cons a b => rw [hrw] at hhd; simp at hhd
            rw [q3.mpr this] at hyhead
            simp at hyhead
          | some d =>
            have hdws : isWsC d = false := head?_dropWhile_false isWsC rest d hhd
            have := q4 d hhd hdws
            rw [this] at hyhead
            rw [Option.some.injEq] at hyhead
            rw [hyhead] at hdws
            rw [hyws] at hdws
            simp at hdws
        · constructor
          · intro h
            simp at h
          · intro h
            simp at h
        · intro d hd hw
          rw [List.head?_cons, Option.some.injEq] at hd
          rw [← hd] at hw
          rw [hc] at hw
          exact absurd hw (by simp)
        · intro d _ _
          rfl
      · have hcf : isWsC c = false := Bool.of_not_eq_true hc
        rw [replAux_false_cons_none mWsPlus [' '] f ls c rest (mWsPlus_cons_neg rest hcf)]
        have hlen2 : rest.length ≤ f := by
          simp only [List.length_cons] at hlen
          omega
        obtain ⟨q1, q2, q3, q4, q5⟩ := ih (isLineTermC c) rest hlen2
        refine ⟨?_, ?_, ?_, ?_, ?_⟩
        · intro d hd hw
          rcases List.mem_cons.mp hd with rfl | hd2
          · rw [hcf] at hw
            exact absurd hw (by simp)
          · exact q1 d hd2 hw
        · refine List.chain'_cons'.mpr ⟨?_, q2⟩
          intro y _ hk
          rw [hcf] at hk
          exact absurd hk.1 (by simp)
        · constructor
          · intro h
            simp at h
          · intro h
            simp at h
        · intro d hd _
          rw [List.head?_cons, Option.some.injEq] at hd
          rw [List.head?_cons, hd]
        · intro d hd hw
          rw [List.head?_cons, Option.some.injEq] at hd
          rw [← hd] at hw
          rw [hcf] at hw
          exact absurd hw (by simp)

/-- The run-collapsing step keeps a non-whitespace string end. -/
theorem step3_last :
    ∀ (f : Nat) (ls : Bool) (s : Str), s.length ≤ f →
      (∀ c, s.getLast? = some c → isWsC c = false) →
      ∀ c, (replAux mWsPlus [' '] false f ls s).getLast? = some c → isWsC c = false := by
  intro f
  induction f with
  | zero =>
    intro ls s hlen _ c hc
    have hs : s = [] := List.length_eq_zero.mp (Nat.le_zero.mp hlen)
    subst hs
    simp [replAux] at hc
  | succ f ih =>
    intro ls s hlen hlast c hc
    cases s with
    | nil => simp [replAux] at hc
    | cons a rest =>
      have hlen1 : rest.length ≤ f := by
        simp only [List.length_cons] at hlen
        omega
      by_cases ha : isWsC a = true
      · rw [replAux_false_cons_some mWsPlus [' '] f ls a rest _ (mWsPlus_cons_pos rest ha),
            dropWhile_eq_drop_len isWsC rest, List.singleton_append] at hc
        have hlen2 : (rest.dropWhile isWsC).length ≤ f := by
          have := List.Sublist.length_le (List.dropWhile_sublist (l := rest) isWsC)
          omega
        have hrw : rest.dropWhile isWsC ≠ [] := by
          intro hnil
          have hall : ∀ x ∈ rest, isWsC x = true := List.dropWhile_eq_nil_iff.mp hnil
          have hne : (a :: rest) ≠ [] := by simp
          have hlmem := List.getLast_mem hne
          have hlw : isWsC ((a :: rest).getLast hne) = true := by
            rcases List.mem_cons.mp hlmem with h1 | h1
            · rw [h1]; exact ha
            · exact hall _ h1
          have hfalse := hlast _ (List.getLast?_eq_getLast_of_ne_nil hne)
          rw [hfalse] at hlw
          exact absurd hlw (by simp)
        have hone : replAux mWsPlus [' '] false f false (rest.dropWhile isWsC) ≠ [] := by
          intro h0
          exact hrw ((step3_spec f false _ hlen2).2.2.1.mp h0)
        rw [getLast?_cons_ne_nil ' ' hone] at hc
        have hrne : rest ≠ [] := by
          intro h0
          rw [h0] at hrw
          exact hrw rfl
        refine ih false (rest.dropWhile isWsC) hlen2 ?_ c hc
        intro d hd
        rw [getLast?_dropWhile isWsC rest hrw, ← getLast?_cons_ne_nil a hrne] at hd
        exact hlast d hd
      · have haf : isWsC a = false := Bool.of_not_eq_true ha
        rw [replAux_false_cons_none mWsPlus [' '] f ls a rest (mWsPlus_cons_neg rest haf)] at hc
        by_cases hout : replAux mWsPlus [' '] false f (isLineTermC a) rest = []
        · rw [hout] at hc
          have hrest : rest = [] := (step3_spec f (isLineTermC a) rest hlen1).2.2.1.mp hout
          subst hrest
          rw [List.getLast?_singleton, Option.some.injEq] at hc
          rw [← hc]
          exact haf
        · rw [getLast?_cons_ne_nil a hout] at hc
          have hrne : rest ≠ [] := by
            intro h0
            rw [h0] at hout
            exact hout (replAux_nil mWsPlus [' '] false f (isLineTermC a))
          refine ih (isLineTermC a) rest hlen1 ?_ c hc
          intro d hd
          rw [← getLast?_cons_ne_nil a hrne] at hd
          exact hlast d hd

/-- The run-collapsing step never outputs a newline. -/
theorem step3_no_newline (f : Nat) (ls : Bool) (s : Str) (hlen : s.length ≤ f) :
    ∀ c ∈ replAux mWsPlus [' '] false f ls s, c ≠ '\n' := by
  intro c hc heq
  subst heq
  have h := (step3_spec f ls s hlen).1 '\n' hc (by decide)
  exact absurd h (by decide)

/-- The run-collapsing step fixes a string whose whitespace is already
single spaces. -/
theorem step3_id_of_norm :
    ∀ (f : Nat) (ls : Bool) (s : Str), s.length ≤ f →
      (∀ c ∈ s, isWsC c = true → c = ' ') →
      List.Chain' (fun a b => ¬(isWsC a = true ∧ isWsC b = true)) s →
      replAux mWsPlus [' '] false f ls s = s := by
  intro f
  induction f with
  | zero => intro ls s _ _ _; rfl
  | succ f ih =>
    intro ls s hlen hsp hch
    cases s with
    | nil => rfl
    | cons a rest =>
      have hlen1 : rest.length ≤ f := by
        simp only [List.length_cons] at hlen
        omega
      have hsp1 : ∀ c ∈ rest, isWsC c = true → c = ' ' :=
        fun c hc hw => hsp c (List.mem_cons_of_mem a hc) hw
      by_cases ha : isWsC a = true
      · have ha2 : a = ' ' := hsp a (by simp) ha
        have htw : rest.takeWhile isWsC = [] := by
          cases rest with
          | nil => rfl
          | cons b t =>
            obtain ⟨hr, _⟩ := List.chain'_cons.mp hch
            have hb : isWsC b = false := by
              by_cases hbw : isWsC b = true
              · exact absurd ⟨ha, hbw⟩ hr
              · exact Bool.of_not_eq_true hbw
            rw [List.takeWhile_cons_of_neg]
            rw [hb]
            exact Bool.false_ne_true
        have hm : mWsPlus (a :: rest) = some (0 + 1) := by
          rw [mWsPlus_cons_pos rest ha, htw]
          rfl
        rw [replAux_false_cons_some mWsPlus [' '] f ls a rest 0 hm, List.drop_zero,
            List.singleton_append, ih false rest hlen1 hsp1 hch.tail, ha2]
      · have haf : isWsC a = false := Bool.of_not_eq_true ha
        rw [replAux_false_cons_none mWsPlus [' '] f ls a rest (mWsPlus_cons_neg rest haf),
            ih (isLineTermC a) rest hlen1 hsp1 hch.tail]

/-- Characterisation of the whitespace-run collapse at the top level. -/
theorem step3_all_spec (w : Str) :
    (∀ c ∈ replAll false mWsPlus [' '] w, isWsC c = true → c = ' ') ∧
    List.Chain' (fun a b => ¬(isWsC a = true ∧ isWsC b = true))
      (replAll false mWsPlus [' '] w) ∧
    (replAll false mWsPlus [' '] w = [] ↔ w = []) ∧
    (∀ c, w.head? = some c → isWsC c = false →
      (replAll false mWsPlus [' '] w).head? = some c) ∧
    (∀ c, w.head? = some c → isWsC c = true →
      (replAll false mWsPlus [' '] w).head? = some ' ') := by
  unfold replAll
  exact step3_spec w.length true w (le_refl _)

theorem step3_all_last (w : Str) (h : ∀ c, w.getLast? = some c → isWsC c = false) :
    ∀ c, (replAll false mWsPlus [' '] w).getLast? = some c → isWsC c = false := by
  unfold replAll
  exact step3_last w.length true w (le_refl _) h

theorem step3_all_no_newline (w : Str) : ∀ c ∈ replAll false mWsPlus [' '] w, c ≠ '\n' := by
  unfold replAll
  exact step3_no_newline w.length true w (le_refl _)

theorem step3_all_id (w : Str)
    (h1 : ∀ c ∈ w, isWsC c = true → c = ' ')
    (h2 : List.Chain' (fun a b => ¬(isWsC a = true ∧ isWsC b = true)) w) :
    replAll false mWsPlus [' '] w = w := by
  unfold replAll
  exact step3_id_of_norm w.length true w (le_refl _) h1 h2

theorem replAll_id_of_none {m : M} (r : Str) (P : Str → Prop)
    (hm : ∀ t, P t → m t = none)
    (htail : ∀ (c : Char) (t : Str), P (c :: t) → P t) (s : Str) (hp : P s) :
    replAll false m r s = s := by
  unfold replAll
  exact replAux_id_of_none r false P hm htail s.length true s hp

theorem mTripleNl_none (t : Str) (h : ∀ c ∈ t, c ≠ '\n') : mTripleNl t = none := by
  cases t with
  | nil => rfl
  | cons c r =>
    have hc : ¬(c = '\n') := h c (by simp)
    simp [mTripleNl, hc]

theorem mNlWsPlus_none (t : Str) (h : ∀ c ∈ t, c ≠ '\n') : mNlWsPlus t = none := by
  cases t with
  | nil => rfl
  | cons c r =>
    have hc : ¬(c = '\n') := h c (by simp)
    simp [mNlWsPlus, mSeq, mThen, mChar, hc]

theorem mWsThenNl_none (t : Str) (h : ∀ c ∈ t, c ≠ '\n') : mWsThenNl t = none := by
  have hps : (List.range (t.takeWhile isWsC).length).filter
      (fun i => i != 0 && (t.takeWhile isWsC).get? i == some '\n') = [] := by
    rw [List.filter_eq_nil_iff]
    intro i _
    intro hcontra
    rw [Bool.and_eq_true] at hcontra
    have hget : (t.takeWhile isWsC).get? i = some '\n' := eq_of_beq hcontra.2
    have hmem : '\n' ∈ t.takeWhile isWsC := List.get?_mem hget
    have hmem2 : '\n' ∈ t := (List.takeWhile_sublist isWsC).mem hmem
    exact h '\n' hmem2 rfl
  show (((List.range (t.takeWhile isWsC).length).filter
      (fun i => i != 0 && (t.takeWhile isWsC).get? i == some '\n')).getLast?).map (· + 1) =
    none
  rw [hps]
  rfl

/-- The two newline-adjacent rules and the paragraph rule never fire after
the whitespace collapse: the tail of the cleanup chain is the collapse of
the trimmed paragraph-collapsed text. -/
theorem wsCleanup_eq_step3 (u : Str) :
    wsCleanup u = replAll false mWsPlus [' ']
      (jsTrim (replAll false mTripleNl ('\n' :: '\n' :: []) u)) := by
  show replAll false mWsThenNl ['\n']
      (replAll false mNlWsPlus ['\n']
        (replAll false mWsPlus [' ']
          (jsTrim (replAll false mTripleNl ('\n' :: '\n' :: []) u)))) = _
  set w := jsTrim (replAll false mTripleNl ('\n' :: '\n' :: []) u) with hw
  have hnl : ∀ c ∈ replAll false mWsPlus [' '] w, c ≠ '\n' := step3_all_no_newline w
  have htail : ∀ (c : Char) (t : Str),
      (∀ d ∈ c :: t, d ≠ '\n') → ∀ d ∈ t, d ≠ '\n' :=
    fun c t ht d hd => ht d (List.mem_cons_of_mem c hd)
  have h4 : replAll false mNlWsPlus ['\n'] (replAll false mWsPlus [' '] w) =
      replAll false mWsPlus [' '] w :=
    replAll_id_of_none ['\n'] _ mNlWsPlus_none htail _ hnl
  rw [h4]
  exact replAll_id_of_none ['\n'] _ mWsThenNl_none htail _ hnl

/-- The output of the whitespace cleanup: every whitespace character is a
single space, no two adjacent whitespace characters, non-whitespace ends,
and no newline at all. -/
theorem wsCleanup_spec (u : Str) :
    (∀ c ∈ wsCleanup u, isWsC c = true → c = ' ') ∧
    List.Chain' (fun a b => ¬(isWsC a = true ∧ isWsC b = true)) (wsCleanup u) ∧
    (∀ c, (wsCleanup u).head? = some c → isWsC c = false) ∧
    (∀ c, (wsCleanup u).getLast? = some c → isWsC c = false) ∧
    (∀ c ∈ wsCleanup u, c ≠ '\n') := by
  rw [wsCleanup_eq_step3]
  set w := jsTrim (replAll false mTripleNl ('\n' :: '\n' :: []) u) with hw
  obtain ⟨q1, q2, q3, q4, q5⟩ := step3_all_spec w
  refine ⟨q1, q2, ?_, ?_, step3_all_no_newline w⟩
  · intro c hc
    cases hhw : w.head? with
    | none =>
      have hwnil : w = [] := List.head?_eq_none_iff.mp hhw
      rw [q3.mpr hwnil] at hc
      simp at hc
    | some d =>
      have hd : isWsC d = false := by
        rw [hw] at hhw
        exact jsTrim_head _ d hhw
      have hh := q4 d hhw hd
      rw [hh, Option.some.injEq] at hc
      rw [← hc]
      exact hd
  · refine step3_all_last w ?_
    intro d hd
    rw [hw] at hd
    exact jsTrim_last _ d hd

/-- The whitespace cleanup fixes every string already in its output form. -/
theorem wsCleanup_id_of_norm (t : Str)
    (h1 : ∀ c ∈ t, isWsC c = true → c = ' ')
    (h2 : List.Chain' (fun a b => ¬(isWsC a = true ∧ isWsC b = true)) t)
    (h3 : ∀ c, t.head? = some c → isWsC c = false)
    (h4 : ∀ c, t.getLast? = some c → isWsC c = false)
    (h5 : ∀ c ∈ t, c ≠ '\n') :
    wsCleanup t = t := by
  have htail : ∀ (c : Char) (ts : Str),
      (∀ d ∈ c :: ts, d ≠ '\n') → ∀ d ∈ ts, d ≠ '\n' :=
    fun c ts ht d hd => ht d (List.mem_cons_of_mem c hd)
  show replAll false mWsThenNl ['\n']
      (replAll false mNlWsPlus ['\n']
        (replAll false mWsPlus [' ']
          (jsTrim (replAll false mTripleNl ('\n' :: '\n' :: []) t)))) = t
  rw [replAll_id_of_none ('\n' :: '\n' :: []) _ mTripleNl_none htail _ h5,
      jsTrim_id t h3 h4, step3_all_id t h1 h2,
      replAll_id_of_none ['\n'] _ mNlWsPlus_none htail _ h5,
      replAll_id_of_none ['\n'] _ mWsThenNl_none htail _ h5]

/-- C7 counterexample: a run of three newlines does NOT survive as a blank
line: the later whitespace rule collapses it (like every whitespace run) to
a single space, so the normalizer output of a-3newlines-b is a space b, not
a blankline b. -/
theorem c7_counterexample :
    cleanFactivaText ("a\n\n\nb" : String).data = ("a b" : String).data ∧
    cleanFactivaText ("a\n\n\nb" : String).data ≠ ("a\n\nb" : String).data := by
  exact ⟨by decide, by decide⟩

/-- C7 (amended): after the boilerplate removals the cleanup first collapses
3+ newline groups and trims the ends, but the following rule collapses EVERY
whitespace run, newlines included, to one space; the final output therefore
has every whitespace character equal to a single space, never two adjacent
whitespace characters, non-whitespace first and last characters, and no
newline at all (paragraph breaks do not survive; the two newline-adjacent
rules are vacuous). -/
theorem c7_whitespace_rules (s : Str) :
    (∀ c ∈ cleanFactivaText s, isWsC c = true → c = ' ') ∧
    List.Chain' (fun a b => ¬(isWsC a = true ∧ isWsC b = true)) (cleanFactivaText s) ∧
    (∀ c, (cleanFactivaText s).head? = some c → isWsC c = false) ∧
    (∀ c, (cleanFactivaText s).getLast? = some c → isWsC c = false) ∧
    (∀ c ∈ cleanFactivaText s, c ≠ '\n') := by
  unfold cleanFactivaText
  by_cases hs : s.isEmpty
  · rw [if_pos hs]
    have hnil : s = [] := List.isEmpty_iff.mp hs
    subst hnil
    refine ⟨?_, ?_, ?_, ?_, ?_⟩ <;> simp
  · rw [if_neg hs]
    exact wsCleanup_spec (removeBoilerplate s)

/-- C7 witness: the amended statement instantiated on a concrete text. -/
theorem c7_whitespace_rules_witness :
    isWsC 'a' = false ∧ '\n' ∉ cleanFactivaText ("a\n\n\nb" : String).data :=
  ⟨(c7_whitespace_rules (("a\n\n\nb" : String)).data).2.2.1 'a' (by decide),
   fun hmem =>
    (c7_whitespace_rules (("a\n\n\nb" : String)).data).2.2.2.2 '\n' hmem rfl⟩

/-- C6 counterexample: the normalizer is not idempotent.  In the input the
copyright line is split by a newline, so no removal rule matches on the
first pass; the whitespace collapse then rewrites it into exactly the form
the copyright rule matches, and a second pass removes it entirely. -/
theorem c6_counterexample :
    cleanFactivaText (cleanFactivaText ("© 2024 Factiva,\nInc." : String).data) ≠
      cleanFactivaText ("© 2024 Factiva,\nInc." : String).data := by
  decide

/-- C6 (amended): the normalizer is idempotent on its own output PROVIDED
the boilerplate removal rules match nothing in the once-normalised text: the
whitespace stage is a projection, so a second pass changes nothing unless
whitespace collapsing has exposed a new boilerplate match. -/
theorem c6_idempotence (s : Str)
    (h : removeBoilerplate (cleanFactivaText s) = cleanFactivaText s) :
    cleanFactivaText (cleanFactivaText s) = cleanFactivaText s := by
  have houter : cleanFactivaText (cleanFactivaText s) =
      if (cleanFactivaText s).isEmpty then cleanFactivaText s
      else wsCleanup (removeBoilerplate (cleanFactivaText s)) := rfl
  rw [houter]
  by_cases ht : (cleanFactivaText s).isEmpty
  · rw [if_pos ht]
  · rw [if_neg ht, h]
    have hsne : ¬(s.isEmpty = true) := by
      intro hse
      have hnil : s = [] := List.isEmpty_iff.mp hse
      apply ht
      rw [hnil]
      rfl
    have hcs : cleanFactivaText s = wsCleanup (removeBoilerplate s) := by
      unfold cleanFactivaText
      rw [if_neg hsne]
    obtain ⟨p1, p2, p3, p4, p5⟩ := wsCleanup_spec (removeBoilerplate s)
    rw [← hcs] at p1 p2 p3 p4 p5
    exact wsCleanup_id_of_norm (cleanFactivaText s) p1 p2 p3 p4 p5

/-- C6 witness: the amended statement on a plain text no rule matches. -/
theorem c6_idempotence_witness :
    removeBoilerplate (cleanFactivaText ("hello world" : String).data) =
      cleanFactivaText ("hello world" : String).data ∧
    cleanFactivaText (cleanFactivaText ("hello world" : String).data) =
      cleanFactivaText ("hello world" : String).data :=
  ⟨by decide, c6_idempotence (("hello world" : String).data) (by decide)⟩

/-- C5 witness: the amended statement at the happy-path scenario. -/
theorem c5_metadata_positions_witness :
    (extractMetadata ("1,204 words\n1 September 2025\nABC News" : String).data
        ("T" : String).data).wordCount = some 1204 ∧
    (extractMetadata ("1,204 words\n1 September 2025\nABC News" : String).data
        ("T" : String).data).source = some (("ABC News" : String).data) := by
  have h := c5_metadata_positions
    (("1,204 words\n1 September 2025\nABC News" : String).data) (("T" : String).data)
    0 1204 (by decide) (by decide) (fun j hj => absurd hj (Nat.not_lt_zero j))
  exact ⟨h.1, (h.2.2.2.1 (by decide) (by decide) (by decide)).trans (by decide)⟩

/-- C8: an article whose text has exactly 50001 characters is discarded, one
with exactly 50000 characters is retained, one with empty text is discarded,
and every article the filter lets through has non-empty text. -/
theorem c8_filter_boundary :
    filterArticles [⟨("A" : String).data, 1, List.replicate 50001 'a', none, none, none, none⟩] =
      [] ∧
    filterArticles [⟨("A" : String).data, 1, List.replicate 50000 'a', none, none, none, none⟩] =
      [⟨("A" : String).data, 1, List.replicate 50000 'a', none, none, none, none⟩] ∧
    filterArticles [⟨("A" : String).data, 1, [], none, none, none, none⟩] = [] ∧
    ∀ (arts : List ExtractedArticle) (a : ExtractedArticle),
      a ∈ filterArticles arts → a.textContent ≠ [] := by
  refine ⟨?_, ?_, by decide, fun arts a h => (filterArticles_sub h).1⟩
  · by_contra hne
    obtain ⟨y, hy⟩ := List.exists_mem_of_ne_nil _ hne
    have hmem := (List.mem_filter.mp hy).1
    rw [List.mem_singleton] at hmem
    have hlen := (filterArticles_sub hy).2
    subst hmem
    have : (List.replicate 50001 'a').length ≤ 50000 := hlen
    rw [List.length_replicate] at this
    omega
  · rw [filterArticles, List.filter_eq_self]
    intro a ha
    rw [List.mem_singleton] at ha
    subst ha
    show (!(List.replicate 50000 'a').isEmpty &&
      decide ((List.replicate 50000 'a').length ≤ 50000)) = true
    have hne : (List.replicate 50000 'a').isEmpty = false :=
      List.isEmpty_eq_false_iff_exists_mem.mpr
        ⟨'a', List.mem_replicate.mpr ⟨by omega, rfl⟩⟩
    rw [List.length_replicate, hne, decide_eq_true (by omega : (50000 : Nat) ≤ 50000)]
    rfl

/-- C8 witness: the retained boundary article indeed has non-empty text. -/
theorem c8_filter_boundary_witness :
    ⟨("A" : String).data, 1, List.replicate 50000 'a', none, none, none, none⟩ ∈
      filterArticles [⟨("A" : String).data, 1, List.replicate 50000 'a', none, none, none, none⟩] ∧
    (⟨("A" : String).data, 1, List.replicate 50000 'a', none, none, none,
        none⟩ : ExtractedArticle).textContent ≠ [] := by
  have hmem : (⟨("A" : String).data, 1, List.replicate 50000 'a', none, none, none,
      none⟩ : ExtractedArticle) ∈
      filterArticles [⟨("A" : String).data, 1, List.replicate 50000 'a', none, none, none,
        none⟩] := by
    rw [c8_filter_boundary.2.1]
    exact List.mem_singleton.mpr rfl
  exact ⟨hmem, c8_filter_boundary.2.2.2 _ _ hmem⟩

/-- C2 counterexample: with known pages numbered 1 and 5 and a single index
entry at start page 5, the claim's reading (the last entry extends to the
largest page number, page 5, giving text y) fails: the code uses the count
of pages, 2, and produces an empty text. -/
theorem c2_counterexample :
    (extractArticleContents [⟨("Alpha entry" : String).data, 5⟩]
        [⟨1, ("x" : String).data⟩, ⟨5, ("y" : String).data⟩]).map
      ExtractedArticle.textContent = [[]] ∧
    ¬ (extractArticleContents [⟨("Alpha entry" : String).data, 5⟩]
        [⟨1, ("x" : String).data⟩, ⟨5, ("y" : String).data⟩]).map
      ExtractedArticle.textContent = [("y" : String).data] := by
  exact ⟨by decide, by decide⟩

/-- C2 (amended): the last index entry's page range runs from its start page
to the COUNT of known pages (which equals the largest page number exactly
when the pages are numbered 1..N); in particular, with pages 1..20 present
and entries at pages 5 and 12, article 1 covers pages 5 through 11 and
article 2 covers pages 12 through 20. -/
theorem c2_span_last_entry (idx : List IndexEntry) (pages : List Page) (h : idx ≠ []) :
    (extractArticleContents idx pages).getLast? =
      some (mkArticle pages (idx.getLast h) (pages.length : Int)) ∧
    extractArticleContents
        [⟨("Alpha one" : String).data, 5⟩, ⟨("Beta two" : String).data, 12⟩] exPages20 =
      [⟨("Alpha one" : String).data, 5,
        ("P5\n\nP6\n\nP7\n\nP8\n\nP9\n\nP10\n\nP11" : String).data, none, none, none, none⟩,
       ⟨("Beta two" : String).data, 12,
        ("P12\n\nP13\n\nP14\n\nP15\n\nP16\n\nP17\n\nP18\n\nP19\n\nP20" : String).data,
        none, none, none, none⟩] :=
  ⟨extractArticleContents_getLast? idx pages h, by decide⟩

/-- C2 witness: the amended statement at the concrete example. -/
theorem c2_span_last_entry_witness :
    ([⟨("Alpha one" : String).data, 5⟩, ⟨("Beta two" : String).data, 12⟩] : List IndexEntry) ≠
      [] ∧
    (extractArticleContents
        [⟨("Alpha one" : String).data, 5⟩, ⟨("Beta two" : String).data, 12⟩]
        exPages20).getLast? =
      some (mkArticle exPages20
        (([⟨("Alpha one" : String).data, 5⟩,
           ⟨("Beta two" : String).data, 12⟩] : List IndexEntry).getLast (by decide))
        ((exPages20.length : Int))) :=
  ⟨by decide,
   (c2_span_last_entry
     [⟨("Alpha one" : String).data, 5⟩, ⟨("Beta two" : String).data, 12⟩]
     exPages20 (by decide)).1⟩

/-- C10: when two adjacent entries of the (sorted, deduplicated) index share
a start page, the earlier one receives the empty page range from its start
page to one before it, hence empty text, and is dropped by the final filter;
the span extractor still returns one intermediate article per entry. -/
theorem c10_duplicate_start_pages (idx : List IndexEntry) (pages : List Page) (i : Nat)
    (h1 : i + 1 < idx.length)
    (hdup : (idx.get ⟨i, Nat.lt_of_succ_lt h1⟩).pageNumber =
      (idx.get ⟨i + 1, h1⟩).pageNumber) :
    ((extractArticleContents idx pages).get
        ⟨i, by rw [extractArticleContents_length]; exact Nat.lt_of_succ_lt h1⟩).textContent =
      [] ∧
    (extractArticleContents idx pages).get
        ⟨i, by rw [extractArticleContents_length]; exact Nat.lt_of_succ_lt h1⟩ ∉
      filterArticles (extractArticleContents idx pages) ∧
    (extractArticleContents idx pages).length = idx.length := by
  have hget := extractArticleContents_get idx pages i (Nat.lt_of_succ_lt h1)
  rw [dif_pos h1] at hget
  have htext : ((extractArticleContents idx pages).get
      ⟨i, by rw [extractArticleContents_length]; exact Nat.lt_of_succ_lt h1⟩).textContent =
      [] := by
    rw [hget]
    show pageRangeText (idx.get ⟨i, Nat.lt_of_succ_lt h1⟩).pageNumber
      (((idx.get ⟨i + 1, h1⟩).pageNumber : Int) - 1) pages = []
    rw [← hdup]
    exact pageRangeText_self_pred _ _
  refine ⟨htext, ?_, extractArticleContents_length idx pages⟩
  intro hmem
  exact (filterArticles_sub hmem).1 htext

/-- C10 witness: two entries at page 3 with pages 1..3 known; the earlier
entry's article is empty and dropped, the later one keeps the full span. -/
theorem c10_duplicate_start_pages_witness :
    ((extractArticleContents
        [⟨("Alpha dup" : String).data, 3⟩, ⟨("Beta dup" : String).data, 3⟩]
        [⟨1, ("one" : String).data⟩, ⟨2, ("two" : String).data⟩,
         ⟨3, ("hello" : String).data⟩]).get ⟨0, by decide⟩).textContent = [] ∧
    (extractArticleContents
        [⟨("Alpha dup" : String).data, 3⟩, ⟨("Beta dup" : String).data, 3⟩]
        [⟨1, ("one" : String).data⟩, ⟨2, ("two" : String).data⟩,
         ⟨3, ("hello" : String).data⟩]).get ⟨0, by decide⟩ ∉
      filterArticles (extractArticleContents
        [⟨("Alpha dup" : String).data, 3⟩, ⟨("Beta dup" : String).data, 3⟩]
        [⟨1, ("one" : String).data⟩, ⟨2, ("two" : String).data⟩,
         ⟨3, ("hello" : String).data⟩]) ∧
    (extractArticleContents
        [⟨("Alpha dup" : String).data, 3⟩, ⟨("Beta dup" : String).data, 3⟩]
        [⟨1, ("one" : String).data⟩, ⟨2, ("two" : String).data⟩,
         ⟨3, ("hello" : String).data⟩]).length =
      ([⟨("Alpha dup" : String).data, 3⟩,
        ⟨("Beta dup" : String).data, 3⟩] : List IndexEntry).length ∧
    filterArticles (extractArticleContents
        [⟨("Alpha dup" : String).data, 3⟩, ⟨("Beta dup" : String).data, 3⟩]
        [⟨1, ("one" : String).data⟩, ⟨2, ("two" : String).data⟩,
         ⟨3, ("hello" : String).data⟩]) =
      [⟨("Beta dup" : String).data, 3, ("hello" : String).data, none, none, none, none⟩] := by
  have h := c10_duplicate_start_pages
    [⟨("Alpha dup" : String).data, 3⟩, ⟨("Beta dup" : String).data, 3⟩]
    [⟨1, ("one" : String).data⟩, ⟨2, ("two" : String).data⟩, ⟨3, ("hello" : String).data⟩]
    0 (by decide) (by decide)
  exact ⟨h.1, h.2.1, h.2.2, by decide⟩

/-- C1 (code evaluation at the failing input): on the synthetic index page
the parser returns the second title polluted with leftover leader periods
and the previous entry's page number (the scan resumes at the previous match
START plus the digit count of its page number, not at the previous match
end), so the output differs from the specified pair of clean titles. -/
theorem c1_parse_index_eval :
    parseIndexPage ("Alpha Report .......... 5\nBeta Notes .......... 12" : String).data =
      [⟨("Alpha Report" : String).data, 5⟩, ⟨("5 Beta Notes" : String).data, 12⟩] ∧
    parseIndexPage ("Alpha Report .......... 5\nBeta Notes .......... 12" : String).data ≠
      [⟨("Alpha Report" : String).data, 5⟩, ⟨("Beta Notes" : String).data, 12⟩] := by
  exact ⟨by decide, by decide⟩

/-- C4: the post-decoding pipeline is a total function returning a list
never longer than the parsed index (discards only shrink it), and the date
parser returns an unparseable date line verbatim instead of failing. -/
theorem c4_totality :
    ∀ (fullText : Str) (pageCount : Nat),
      (extractArticlesCore fullText pageCount).length ≤
        (extractArticleIndex (splitIntoPages fullText pageCount)).length ∧
      ∀ d : Str, dateLineParse d = none → parseDate d = d := by
  intro fullText pageCount
  constructor
  · unfold extractArticlesCore filterArticles
    refine le_trans (List.length_filter_le _ _) ?_
    simp [extractArticleContents_length]
  · intro d h
    simp [parseDate, h]

/-- C4 witness: the date fallback at a concrete unparseable line. -/
theorem c4_totality_witness :
    dateLineParse ("no date here" : String).data = none ∧
    parseDate ("no date here" : String).data = ("no date here" : String).data :=
  ⟨by decide, (c4_totality [] 0).2 (("no date here" : String).data) (by decide)⟩

/-- C9: the index produced by extractArticleIndex is sorted ascending by
start page and no two of its entries agree on both title and start page. -/
theorem c9_index_invariant (pages : List Page) :
    List.Sorted entryLe (extractArticleIndex pages) ∧
    List.Pairwise (fun a b => ¬(a.title = b.title ∧ a.pageNumber = b.pageNumber))
      (extractArticleIndex pages) := by
  constructor
  · exact List.sorted_insertionSort entryLe _
  · simp only [extractArticleIndex, uniqueEntries]
    exact (pairwise_uniqueAux _ 0 _).perm (List.perm_insertionSort entryLe _).symm
      (fun hab hk => hab ⟨hk.1.symm, hk.2.symm⟩)

end NewsHub
